import Mathlib

/-!
Shallow embedding of an IRC client library together with its per-user
bucketed message log.  Strings are modelled as lists of characters.  The
line codec, the connection setup, the receive-loop dispatch and the
message store are translated from the source; the few small helpers whose
bodies are not part of the source tree are modelled from the
specification and marked as such in their doc comments.
-/

/- ===== Go string and byte-array helpers, on lists of characters ===== -/

/-- Does the first list occur as a leading segment of the second?
(Go strings.HasPre.. check used by the codec.) -/
def startsWith : List Char → List Char → Bool
  | [], _ => true
  | _ :: _, [] => false
  | a :: sub, b :: s => a == b && startsWith sub s

/-- Go strings.Index: position of the first occurrence of sub inside s,
none when absent (Go returns -1). -/
def strIndex : List Char → List Char → Option Nat
  | [], sub => if startsWith sub [] then some 0 else none
  | a :: t, sub =>
    if startsWith sub (a :: t) then some 0
    else (strIndex t sub).map (fun n => n + 1)

/-- Go strings.Trim / bytes.Trim with a one-character-class cutset:
drop the matching characters from both ends. -/
def trimBy (p : Char → Bool) (s : List Char) : List Char :=
  ((s.dropWhile p).reverse.dropWhile p).reverse

/-- Go s[a:b] for valid bounds; callers model out-of-range bounds (a Go
runtime panic) explicitly before slicing. -/
def goSlice (s : List Char) (a b : Nat) : List Char := (s.take b).drop a

/-- Go strings.Split with a single-character separator: every separator
splits, empty fields are kept, and the empty string yields one empty
field. -/
def splitChar (c : Char) : List Char → List (List Char)
  | [] => [[]]
  | a :: t =>
    if a == c then [] :: splitChar c t
    else
      match splitChar c t with
      | [] => [[a]]
      | h :: r => (a :: h) :: r

def crlf : List Char := "\r\n".data

def sSpace : List Char := " ".data

def sSpColon : List Char := " :".data

def sColon : List Char := ":".data

def sBang : List Char := "!".data

def trimRN : List Char → List Char := trimBy (fun c => c == '\r' || c == '\n')

def trimSpaces : List Char → List Char := trimBy (fun c => c == ' ')

/- ===== Message codec (package server, parseMessage / parseUser) ===== -/

/-- A parsed IRC wire message: optional origin, command, ordered
arguments and the optional trailing argument. -/
structure Message where
  prefixStr : List Char := []
  Command : List Char := []
  Params : List (List Char) := []
  Trailing : List Char := []
deriving DecidableEq

/-- Helper for parseMessage: the leading-colon origin section.  Returns
the command start offset together with the origin text; none models the
Go slicing panic that parseMessage hits on a colon-led line without any
space (cmdStart stays 0 and line[1:-1] is out of range). -/
def parsePfx (line : List Char) : Option (Nat × List Char) :=
  if startsWith sColon line then
    match strIndex line sSpace with
    | none => none
    | some sp => some (sp + 1, goSlice line 1 sp)
  else some (0, ([] : List Char))

/-- Translation of parseMessage from the source: trim CR and LF, read
the optional origin, locate the first space-colon to split off the
trailing argument, split the middle on spaces into command and params,
and append a non-empty trailing as the last param.  none models the Go
slicing panics (origin without a space; trailing separator inside the
origin section, which makes cmdEnd smaller than cmdStart). -/
def parseMessageCore (line : List Char) : Option Message :=
  match parsePfx line with
  | none => none
  | some (cmdStart, pfx) =>
    let tr :=
      match strIndex line sSpColon with
      | some i => if 0 < i then some i else none
      | none => none
    let cmdEnd := match tr with | some i => i | none => line.length
    let trailing := match tr with | some i => line.drop (i + 2) | none => []
    if cmdStart ≤ cmdEnd then
      let cmd := splitChar ' ' (goSlice line cmdStart cmdEnd)
      let params0 := if 1 < cmd.length then cmd.tail else []
      let params := if trailing ≠ [] then params0 ++ [trailing] else params0
      some { prefixStr := pfx, Command := cmd.headD [],
             Params := params, Trailing := trailing }
    else none

/-- Translation of parseMessage from the source, trim applied first: Go
reassigns the line to its CR/LF-trimmed form before parsing. -/
def parseMessage (line0 : List Char) : Option Message :=
  parseMessageCore (trimRN line0)

/-- Translation of parseUser from the source: keep only the nickname
part of a full origin, the text before the first exclamation mark when
that mark occurs past the first position. -/
def parseUser (user : List Char) : List Char :=
  match strIndex user sBang with
  | some i => if 0 < i then user.take i else user
  | none => user

/-- Modelled from the spec: the richer engine codec (ParseMessage of the
irc package, whose file is not in the source tree).  It follows the
section 4.1 grammar, which parseMessage implements, yields a parse
failure on input that is empty after trimming, and normalizes the origin
to the sender nickname via parseUser. -/
def ParseMessage (line : List Char) : Option Message :=
  if trimRN line = [] then none
  else
    match parseMessage line with
    | none => none
    | some m => some { m with prefixStr := parseUser m.prefixStr }

/- ===== IRC command and numeric constants (package server) ===== -/

def PING : List Char := "PING".data

def NICK : List Char := "NICK".data

def JOIN : List Char := "JOIN".data

def PRIVMSG : List Char := "PRIVMSG".data

def CAP : List Char := "CAP".data

def ERROR : List Char := "ERROR".data

def RPL_WELCOME : List Char := "001".data

def RPL_ISUPPORT : List Char := "005".data

def ERR_NICKNAMEINUSE : List Char := "433".data

def ERR_NICKCOLLISION : List Char := "436".data

def ERR_UNAVAILRESOURCE : List Char := "437".data

/- ===== Connection setup (package server, Connect) ===== -/

def sPort6697 : List Char := ":6697".data

def sPort6667 : List Char := ":6667".data

def sPASScmd : List Char := "PASS ".data

def sNICKcmd : List Char := "NICK ".data

def sUSERcmd : List Char := "USER ".data

def sUserMid : List Char := " 0 * :".data

def sPONGcmd : List Char := "PONG :".data

/-- Client configuration relevant to connection setup.  tlsServerName is
the server name carried by the supplied TLS configuration; the empty
list stands both for an unset name and for the nil configuration the
source replaces by a default one. -/
structure IRCConfig where
  tls : Bool
  tlsServerName : List Char
  password : List Char
  nick : List Char
  username : List Char
  realname : List Char

/-- The hostname part of a dial address: the text before the first
colon, or the whole address without one. -/
def hostOf (addr : List Char) : List Char :=
  match strIndex addr sColon with
  | some i => addr.take i
  | none => addr

/-- Modelled from the Go standard library dialer used by the source: the
TLS handshake uses the configured server name when one is set, and
otherwise falls back to the hostname part of the dialed address.  The
source passes its TLS configuration through unchanged. -/
def effectiveServerName (cfgName dialAddr : List Char) : List Char :=
  if cfgName = [] then hostOf dialAddr else cfgName

/-- Result of the connection setup: resolved host, dialed address, the
server name the TLS handshake would use, the registration lines written
to the socket, and whether the welcome numeric has been observed yet
(the send task blocks on the ready latch until it is). -/
structure ConnectResult where
  host : List Char
  dialAddr : List Char
  serverName : List Char
  socketWrites : List (List Char)
  welcomeObserved : Bool
deriving DecidableEq

/-- Translation of Connect from the source: a bare address (no colon)
gets the default port appended, 6697 with TLS and 6667 without, and
becomes the host; an address with a colon is dialed unchanged and its
host is the text before the colon.  After dialing, PASS (when a password
is configured), NICK and USER are written directly to the socket; the
ready latch that gates the send task is still held, so the welcome has
not been observed. -/
def Connect (cfg : IRCConfig) (address : List Char) : ConnectResult :=
  let hd :=
    match strIndex address sColon with
    | none => (address, address ++ (if cfg.tls then sPort6697 else sPort6667))
    | some idx => (address.take idx, address)
  let sn := if cfg.tls then effectiveServerName cfg.tlsServerName hd.2 else []
  let writes :=
    (if cfg.password ≠ [] then [sPASScmd ++ cfg.password ++ crlf] else [])
      ++ [sNICKcmd ++ cfg.nick ++ crlf,
          sUSERcmd ++ cfg.username ++ sUserMid ++ cfg.realname ++ crlf]
  { host := hd.1, dialAddr := hd.2, serverName := sn,
    socketWrites := writes, welcomeObserved := false }

/- ===== Receive-loop dispatch (package irc, recv) ===== -/

/-- Engine configuration relevant to dispatch: the optional nickname
collision callback. -/
structure RecvConfig where
  handleNickInUse : Option (List Char → List Char)

/-- Mutable engine state touched by the receive loop. -/
structure ClientState where
  nick : List Char
  registered : Bool
  sendStarted : Bool
  channels : List (List Char)
  quitClosed : Bool
deriving DecidableEq

/-- Externally visible actions of one receive-loop iteration, in program
order.  Handlers whose bodies are not in the source tree (SASL, CAP,
CTCP, feature parsing, channel replay) appear as opaque events. -/
inductive Event where
  | sockWrite (line : List Char)
  | deliver (m : Message)
  | connChange (connected : Bool) (errBadProtocol : Bool)
  | closeQuit
  | startSend
  | backoffReset
  | flushChannels (chans : List (List Char))
  | saslStep (m : Message)
  | ctcpReply (m : Message)
  | capStep (m : Message)
  | featuresParse (params : List (List Char))
deriving DecidableEq

/-- Modelled from the spec: the last-argument accessor of the engine
message type; the last entry of params is the conceptual last
argument. -/
def Message.lastParam (m : Message) : List Char := (m.Params.getLast?).getD []

def ctcpDelim : Char := '\x01'

/-- Modelled from the spec: a message is a CTCP request when its
trailing argument begins and ends with the 0x01 delimiter; the payload
sits between the delimiters. -/
def Message.toCTCP (m : Message) : Option (List Char) :=
  if 2 ≤ m.Trailing.length ∧ m.Trailing.head? = some ctcpDelim
      ∧ m.Trailing.getLast? = some ctcpDelim
  then some ((m.Trailing.drop 1).dropLast)
  else none

/-- Modelled from the spec: joining adds the channel to the state set,
preserving insertion order for replay. -/
def addChannel (st : ClientState) (ch : List Char) : ClientState :=
  if ch ∈ st.channels then st else { st with channels := st.channels ++ [ch] }

def initState (nick0 : List Char) : ClientState :=
  { nick := nick0, registered := false, sendStarted := false,
    channels := [], quitClosed := false }

/-- Translation of one iteration of recv from the source: trim spaces,
skip empty lines, treat a parse failure as a protocol violation (close
quit, emit the bad-protocol state change, return), and otherwise run the
command switch before handing the message to SASL handling and then to
the consumer channel.  The ERROR case forwards the message, emits a
disconnected state change and closes quit, then returns.  none models
the Go index panics (001 or a self JOIN without params, a nickname-in-use
numeric with a callback but fewer than two params).  The returned flag
records whether the loop returned after this line. -/
def recvStep (cfg : RecvConfig) (st : ClientState) (lineRaw : List Char) :
    Option (ClientState × List Event × Bool) :=
  let b := trimSpaces lineRaw
  if b = [] then some (st, [], false)
  else
    match ParseMessage b with
    | none =>
      some ({ st with quitClosed := true },
            [Event.closeQuit, Event.connChange false true], true)
    | some msg =>
      let tl := [Event.saslStep msg, Event.deliver msg]
      if msg.Command = PING then
        some (st, Event.sockWrite (sPONGcmd ++ msg.lastParam ++ crlf) :: tl, false)
      else if msg.Command = JOIN then
        if msg.prefixStr = st.nick then
          match msg.Params with
          | [] => none
          | ch :: _ => some (addChannel st ch, tl, false)
        else some (st, tl, false)
      else if msg.Command = NICK then
        if msg.prefixStr = st.nick then
          some ({ st with nick := msg.lastParam }, tl, false)
        else some (st, tl, false)
      else if msg.Command = PRIVMSG then
        match msg.toCTCP with
        | some _ => some (st, Event.ctcpReply msg :: tl, false)
        | none => some (st, tl, false)
      else if msg.Command = CAP then
        some (st, Event.capStep msg :: tl, false)
      else if msg.Command = RPL_WELCOME then
        match msg.Params with
        | [] => none
        | n :: _ =>
          some ({ st with nick := n, registered := true, sendStarted := true },
                Event.flushChannels st.channels :: Event.backoffReset
                  :: Event.startSend :: tl, false)
      else if msg.Command = RPL_ISUPPORT then
        some (st, Event.featuresParse msg.Params :: tl, false)
      else if msg.Command = ERR_NICKNAMEINUSE ∨ msg.Command = ERR_NICKCOLLISION
          ∨ msg.Command = ERR_UNAVAILRESOURCE then
        match cfg.handleNickInUse with
        | some f =>
          match msg.Params with
          | _ :: rejected :: _ =>
            some ({ st with nick := f rejected },
                  Event.sockWrite (sNICKcmd ++ f rejected ++ crlf) :: tl, false)
          | _ => none
        | none => some (st, tl, false)
      else if msg.Command = ERROR then
        some ({ st with quitClosed := true },
              [Event.deliver msg, Event.connChange false false, Event.closeQuit],
              true)
      else some (st, tl, false)

/-- The receive loop over a list of inbound lines: apply recvStep until
a step returns (halt flag) or panics, concatenating the event traces. -/
def recvRun (cfg : RecvConfig) : ClientState → List (List Char) →
    Option (ClientState × List Event)
  | st, [] => some (st, [])
  | st, l :: ls =>
    match recvStep cfg st l with
    | none => none
    | some (st', evs, true) => some (st', evs)
    | some (st', evs, false) =>
      match recvRun cfg st' ls with
      | none => none
      | some (st'', evs') => some (st'', evs ++ evs')

/-- Does the line parse (after the receive-loop trim) to the welcome
numeric? -/
def parsesToWelcome (l : List Char) : Bool :=
  match ParseMessage (trimSpaces l) with
  | some m => decide (m.Command = RPL_WELCOME)
  | none => false

/-- The PONG fast path writes. -/
def isPongWrite (w : List Char) : Bool := startsWith sPONGcmd w

/-- Socket writes the receive loop may perform before the welcome: PONG
replies and replacement NICK commands. -/
def allowedPreWelcome (w : List Char) : Bool :=
  startsWith sPONGcmd w || startsWith sNICKcmd w

/-- Events compatible with the pre-welcome phase: no send-task start and
only PONG or replacement-NICK socket writes. -/
def eventOkPreWelcome : Event → Bool
  | Event.startSend => false
  | Event.sockWrite w => allowedPreWelcome w
  | _ => true

/-- The message was delivered to the consumer exactly once, after every
other action of the step. -/
def deliversLast (evs : List Event) (m : Message) : Prop :=
  evs.getLast? = some (Event.deliver m) ∧ ∀ e ∈ evs.dropLast, e ≠ Event.deliver m

/- ===== Message store (package storage) ===== -/

/-- A stored chat record: per-bucket id, routing fields, content and
Unix time. -/
structure SMessage where
  ID : Nat
  Server : List Char
  From : List Char
  To : List Char
  Content : List Char
  Time : Int
deriving DecidableEq

def zeroSMessage : SMessage :=
  { ID := 0, Server := [], From := [], To := [], Content := [], Time := 0 }

/-- One key/value sub-bucket: the sequence counter and the records in
key order.  Keys are 8-byte big-endian ids in the source, so cursor
order is numeric order; a stored value of none models a record the
decoder cannot read. -/
structure Bucket where
  seq : Nat
  entries : List (Nat × Option SMessage)
deriving DecidableEq

abbrev Store := List (List Char × Bucket)

def emptyBucket : Bucket := { seq := 0, entries := [] }

def storeLookup : Store → List Char → Option Bucket
  | [], _ => none
  | (k, b) :: t, key => if k = key then some b else storeLookup t key

def storeInsert : Store → List Char → Bucket → Store
  | [], key, b => [(key, b)]
  | (k, b0) :: t, key, b =>
    if k = key then (key, b) :: t else (k, b0) :: storeInsert t key b

/-- Key-ordered insert, the bolt Put on 8-byte big-endian keys. -/
def boltPut : List (Nat × Option SMessage) → Nat → Option SMessage →
    List (Nat × Option SMessage)
  | [], k, v => [(k, v)]
  | (k0, v0) :: t, k, v =>
    if k < k0 then (k, v) :: (k0, v0) :: t
    else if k = k0 then (k, v) :: t
    else (k0, v0) :: boltPut t k v

/-- Decode one cursor value into its slot: a failed Unmarshal is ignored
and the slot keeps the zero record. -/
def decodeSlot (p : Nat × Option SMessage) : SMessage := p.2.getD zeroSMessage

/-- Translation of LogMessage from the source: build the record, open or
create the (server, target) bucket, take the next per-bucket sequence
value as the id, and put the encoded record at that key.  The index step
and the always-successful marshal of this record type are omitted; the
new id is returned with the store. -/
def LogMessage (u : Store) (server sender target content : List Char)
    (now : Int) : Store × Nat :=
  let bucketKey := server ++ sColon ++ target
  let b := (storeLookup u bucketKey).getD emptyBucket
  let id := b.seq + 1
  let m : SMessage :=
    { ID := id, Server := server, From := sender, To := target,
      Content := content, Time := now }
  (storeInsert u bucketKey { seq := id, entries := boltPut b.entries id (some m) },
   id)

/-- One LogMessage invocation in a run. -/
structure LogCall where
  server : List Char
  sender : List Char
  target : List Char
  content : List Char
  time : Int

/-- A run of LogMessage calls, returning the final store and, per call,
the bucket key written together with the id assigned. -/
def logRun : Store → List LogCall → Store × List (List Char × Nat)
  | u, [] => (u, [])
  | u, c :: cs =>
    let r := LogMessage u c.server c.sender c.target c.content c.time
    let rest := logRun r.1 cs
    (rest.1, (c.server ++ sColon ++ c.target, r.2) :: rest.2)

/-- The ids a run assigned inside one bucket, in call order. -/
def bucketIds (outs : List (List Char × Nat)) (k : List Char) : List Nat :=
  (outs.filter (fun p => p.1 == k)).map (fun p => p.2)

def seqOf (u : Store) (k : List Char) : Nat :=
  ((storeLookup u k).getD emptyBucket).seq

/-- Translation of GetLastMessages from the source: a missing bucket
leaves the result slice untouched and returns nil with no error; otherwise the
cursor walks backward from the last key up to count times, decoding into
slots count-1, count-2, and so on, and the populated suffix (or the full
slice, or nil when nothing was read) is returned with no error. -/
def GetLastMessages (u : Store) (server channel : List Char) (count : Nat) :
    List SMessage × Option Unit :=
  match storeLookup u (server ++ sColon ++ channel) with
  | none => ([], none)
  | some b =>
    let collected := ((b.entries.reverse.take count).reverse).map decodeSlot
    let remaining := count - collected.length
    if remaining = 0 then (collected, none)
    else if remaining < count then (collected, none)
    else ([], none)

/-- Translation of GetMessages from the source: a missing bucket returns
nil with no error; otherwise the cursor seeks to the first key not below
fromID and walks strictly backward up to count records, packing them the
same way as GetLastMessages. -/
def GetMessages (u : Store) (server channel : List Char) (count : Nat)
    (fromID : Nat) : List SMessage × Option Unit :=
  match storeLookup u (server ++ sColon ++ channel) with
  | none => ([], none)
  | some b =>
    let idx := b.entries.findIdx (fun e => decide (fromID ≤ e.1))
    let pre := b.entries.take idx
    let collected := ((pre.reverse.take count).reverse).map decodeSlot
    let remaining := count - collected.length
    if remaining = 0 then (collected, none)
    else if remaining < count then (collected, none)
    else ([], none)

/-- A stored entry decodes to a record whose id matches its key. -/
def entryOk (p : Nat × Option SMessage) : Bool :=
  match p.2 with
  | some m => decide (m.ID = p.1)
  | none => false

/-- Bucket well-formedness: keys strictly increase along the cursor and
every value decodes to a record carrying its key as id. -/
def BucketWF (b : Bucket) : Prop :=
  List.Chain' (fun p q : Nat × Option SMessage => p.1 < q.1) b.entries ∧
  ∀ p ∈ b.entries, entryOk p = true

def StoreWF (u : Store) : Prop := ∀ p ∈ u, BucketWF p.2

instance : DecidablePred BucketWF := fun b =>
  inferInstanceAs (Decidable
    (List.Chain' (fun p q : Nat × Option SMessage => p.1 < q.1) b.entries ∧
     ∀ p ∈ b.entries, entryOk p = true))

instance : DecidablePred StoreWF := fun u =>
  inferInstanceAs (Decidable (∀ p ∈ u, BucketWF p.2))

/- ===== Concrete inputs used by witnesses and counterexamples ===== -/

def sAlice : List Char := "alice".data

def sAliceU : List Char := "alice_".data

def sIrcExample : List Char := "irc.example".data

def sIrcExamplePort : List Char := "irc.example:7000".data

def sOther : List Char := "other.example".data

def cfgPlain : RecvConfig := { handleNickInUse := none }

def cfgCB : RecvConfig := { handleNickInUse := some (fun _ => sAliceU) }

def cfgAlice : IRCConfig :=
  { tls := false, tlsServerName := [], password := [],
    nick := sAlice, username := sAlice, realname := sAlice }

def cfgTLSother : IRCConfig :=
  { tls := true, tlsServerName := sOther, password := [],
    nick := sAlice, username := sAlice, realname := sAlice }

def cfgTLSplain : IRCConfig :=
  { tls := true, tlsServerName := [], password := [],
    nick := sAlice, username := sAlice, realname := sAlice }

def lineScen : List Char := ":nick!user@host PRIVMSG #chan :hello world".data

def msgScen : Message :=
  { prefixStr := "nick!user@host".data, Command := "PRIVMSG".data,
    Params := ["#chan".data, "hello world".data],
    Trailing := "hello world".data }

def lineBlank : List Char := "   ".data

def lineBadPfx : List Char := ":x".data

def linePing : List Char := "PING :x".data

def msgPing : Message :=
  { prefixStr := [], Command := "PING".data,
    Params := ["x".data], Trailing := "x".data }

def evsPing : List Event :=
  [Event.sockWrite ("PONG :x\r\n".data), Event.saslStep msgPing,
   Event.deliver msgPing]

def lineErrCmd : List Char := "ERROR :bye".data

def msgErr : Message :=
  { prefixStr := [], Command := "ERROR".data,
    Params := ["bye".data], Trailing := "bye".data }

def sNICKalice : List Char := "NICK alice\r\n".data

def sChanK : List Char := "srv:#chan".data

def mEx1 : SMessage :=
  { ID := 1, Server := "srv".data, From := "bob".data, To := "#chan".data,
    Content := "hi".data, Time := 10 }

def mEx2 : SMessage :=
  { ID := 2, Server := "srv".data, From := "bob".data, To := "#chan".data,
    Content := "bye".data, Time := 11 }

def mEx3 : SMessage :=
  { ID := 3, Server := "srv".data, From := "eve".data, To := "#chan".data,
    Content := "yo".data, Time := 12 }

def bEx : Bucket :=
  { seq := 3, entries := [(1, some mEx1), (2, some mEx2), (3, some mEx3)] }

def uEx : Store := [(sChanK, bEx)]

def sSrv : List Char := "srv".data

def sHashChan : List Char := "#chan".data

/- ===== Helper lemmas ===== -/

theorem startsWith_append : ∀ (p r : List Char), startsWith p (p ++ r) = true := by
  intro p r
  induction p with
  | nil => simp [startsWith]
  | cons a t ih => simp [startsWith, ih]

theorem strIndex_singleton_none : ∀ (a : List Char) (c : Char),
    strIndex a [c] = none ↔ c ∉ a := by
  intro a c
  induction a with
  | nil => simp [strIndex, startsWith]
  | cons x t ih =>
    by_cases hc : c = x
    · subst hc; simp [strIndex, startsWith]
    · simp [strIndex, startsWith, hc, Option.map_eq_none', ih]

theorem strIndex_append_cons : ∀ (a r : List Char) (c : Char),
    strIndex a [c] = none → strIndex (a ++ c :: r) [c] = some a.length := by
  intro a r c h
  induction a with
  | nil => simp [strIndex, startsWith]
  | cons x t ih =>
    simp only [strIndex, startsWith, Bool.and_true] at h
    split at h
    · exact absurd h (by simp)
    · rename_i hbeq
      rw [Option.map_eq_none'] at h
      simp only [List.cons_append, strIndex, startsWith, Bool.and_true,
        if_neg hbeq, List.append_eq, ih h, Option.map_some', List.length_cons]

/- ===== C1: a present trailing is the last param ===== -/

/-- C1.  For every input line whose parse yields a message with a
trailing argument present, the trailing is appended as the final entry
of params, so the last element of params equals the trailing. -/
theorem parseMessage_trailing_last :
    ∀ (line : List Char) (m : Message),
      parseMessage line = some m → m.Trailing ≠ [] →
      m.Params.getLast? = some m.Trailing := by
  intro line m h ht
  unfold parseMessage at h
  generalize trimRN line = L at h
  unfold parseMessageCore at h
  cases hp : parsePfx L with
  | none => rw [hp] at h; exact absurd h (by simp)
  | some cp =>
    rw [hp] at h
    obtain ⟨cmdStart, pfx⟩ := cp
    dsimp only at h
    split at h
    · injection h with h'
      subst h'
      dsimp only at ht ⊢
      rw [if_pos ht]
      exact List.getLast?_concat _
    · exact absurd h (by simp)

/-- Witness for C1 at a concrete PRIVMSG line. -/
theorem parseMessage_trailing_last_witness :
    parseMessage lineScen = some msgScen ∧ msgScen.Trailing ≠ [] ∧
    msgScen.Params.getLast? = some msgScen.Trailing :=
  ⟨by decide, by decide,
   parseMessage_trailing_last lineScen msgScen (by decide) (by decide)⟩

/- ===== C9: default ports on bare hosts ===== -/

/-- C9.  A Connect address without a colon gets the default port
appended before dialing, 6697 with TLS and 6667 without, and an address
that already carries a port is dialed unchanged. -/
theorem connect_default_ports :
    ∀ (cfg : IRCConfig) (address : List Char),
      ((':' ∉ address) →
        (Connect cfg address).dialAddr
            = address ++ (if cfg.tls then sPort6697 else sPort6667) ∧
        (Connect cfg address).host = address) ∧
      ((':' ∈ address) → (Connect cfg address).dialAddr = address) := by
  intro cfg address
  constructor
  · intro hmem
    have hn : strIndex address sColon = none := by
      rw [show sColon = [':'] from rfl, strIndex_singleton_none]
      exact hmem
    constructor <;> simp [Connect, hn]
  · intro hmem
    cases hs : strIndex address sColon with
    | none =>
      rw [show sColon = [':'] from rfl, strIndex_singleton_none] at hs
      exact absurd hmem hs
    | some i => simp [Connect, hs]

/-- Witness for C9: a bare TLS host gets port 6697; an address carrying
a port is dialed unchanged. -/
theorem connect_default_ports_witness :
    ((':' ∉ sIrcExample) ∧
      (Connect cfgTLSplain sIrcExample).dialAddr
          = sIrcExample ++ (if cfgTLSplain.tls then sPort6697 else sPort6667)) ∧
    ((':' ∈ sIrcExamplePort) ∧
      (Connect cfgTLSplain sIrcExamplePort).dialAddr = sIrcExamplePort) :=
  ⟨⟨by decide, ((connect_default_ports cfgTLSplain sIrcExample).1 (by decide)).1⟩,
   ⟨by decide, (connect_default_ports cfgTLSplain sIrcExamplePort).2 (by decide)⟩⟩

/- ===== C8: TLS server name (corrected) ===== -/

/-- Counterexample to C8 as stated: with TLS enabled and a caller
configuration that already carries a different server name, the client
does not force the handshake name to the configured host; the dialer
keeps the caller value. -/
theorem tls_server_name_not_forced_cex :
    cfgTLSother.tls = true ∧
    (Connect cfgTLSother sIrcExample).host = sIrcExample ∧
    (Connect cfgTLSother sIrcExample).serverName = sOther ∧
    sOther ≠ sIrcExample := by decide

/-- C8 as amended: the client never assigns the server name itself; the
handshake name equals the configured host exactly when the supplied TLS
configuration leaves it unset (including the default nil configuration),
because the dialer derives it from the dial address. -/
theorem tls_server_name_defaults_to_host :
    ∀ (cfg : IRCConfig) (address : List Char),
      cfg.tls = true → cfg.tlsServerName = [] →
      (Connect cfg address).serverName = (Connect cfg address).host := by
  intro cfg address htls hsn
  cases hs : strIndex address sColon with
  | some i =>
    simp [Connect, hs, htls, effectiveServerName, hsn, hostOf]
  | none =>
    have h1 : strIndex (address ++ ':' :: ("6697".data)) [':'] = some address.length :=
      strIndex_append_cons address _ ':' (by rw [show sColon = [':'] from rfl] at hs; exact hs)
    have h2 : strIndex (address ++ ':' :: ("6667".data)) [':'] = some address.length :=
      strIndex_append_cons address _ ':' (by rw [show sColon = [':'] from rfl] at hs; exact hs)
    cases ht : cfg.tls with
    | false => rw [ht] at htls; exact absurd htls (by simp)
    | true =>
      have hs' : strIndex address [':'] = none := hs
      simp only [Connect, hs, hs', ht, if_true, effectiveServerName, hsn, hostOf,
        show sPort6697 = ':' :: ("6697".data) from rfl,
        show sColon = [':'] from rfl, h1]
      exact List.take_left address _

/-- Witness for C8 as amended, at a TLS configuration with an unset
server name. -/
theorem tls_server_name_defaults_to_host_witness :
    cfgTLSplain.tls = true ∧ cfgTLSplain.tlsServerName = [] ∧
    (Connect cfgTLSplain sIrcExample).serverName
        = (Connect cfgTLSplain sIrcExample).host :=
  ⟨rfl, rfl, tls_server_name_defaults_to_host cfgTLSplain sIrcExample rfl rfl⟩

/- ===== C2 counterexample: registration writes precede the welcome ===== -/

/-- Counterexample to C2 as stated: on connect the client writes the
registration NICK line directly to the socket while the welcome numeric
has not been observed, and that line is not a PONG. -/
theorem registration_write_before_welcome_cex :
    sNICKalice ∈ (Connect cfgAlice sIrcExample).socketWrites ∧
    isPongWrite sNICKalice = false ∧
    (Connect cfgAlice sIrcExample).welcomeObserved = false := by decide

/- ===== C10: read paths never surface an error ===== -/

/-- C10.  For every store and every argument combination, including
absent buckets, empty buckets and undecodable records, the two read
functions return no error. -/
theorem store_reads_error_free :
    ∀ (u : Store) (server channel : List Char) (n fromID : Nat),
      (GetLastMessages u server channel n).2 = none ∧
      (GetMessages u server channel n fromID).2 = none := by
  intro u server channel n fromID
  constructor
  · unfold GetLastMessages
    cases storeLookup u (server ++ sColon ++ channel) with
    | none => rfl
    | some b =>
      dsimp only
      split
      · rfl
      · split <;> rfl
  · unfold GetMessages
    cases storeLookup u (server ++ sColon ++ channel) with
    | none => rfl
    | some b =>
      dsimp only
      split
      · rfl
      · split <;> rfl

/- ===== C3: per-bucket ids strictly increase ===== -/

theorem storeLookup_insert_self :
    ∀ (u : Store) (k : List Char) (b : Bucket),
      storeLookup (storeInsert u k b) k = some b := by
  intro u k b
  induction u with
  | nil => simp [storeInsert, storeLookup]
  | cons p t ih =>
    obtain ⟨k0, b0⟩ := p
    by_cases hk : k0 = k
    · subst hk; simp [storeInsert, storeLookup]
    · simp [storeInsert, storeLookup, hk, ih]

theorem storeLookup_insert_other :
    ∀ (u : Store) (k k' : List Char) (b : Bucket), k ≠ k' →
      storeLookup (storeInsert u k b) k' = storeLookup u k' := by
  intro u k k' b hne
  induction u with
  | nil => simp [storeInsert, storeLookup, hne]
  | cons p t ih =>
    obtain ⟨k0, b0⟩ := p
    by_cases hk : k0 = k
    · subst hk; simp [storeInsert, storeLookup, hne]
    · simp [storeInsert, storeLookup, hk, ih]

theorem seqOf_logMessage :
    ∀ (u : Store) (sv sd tg ct : List Char) (tm : Int) (k : List Char),
      seqOf (LogMessage u sv sd tg ct tm).1 k
        = if sv ++ sColon ++ tg = k
          then seqOf u (sv ++ sColon ++ tg) + 1 else seqOf u k := by
  intro u sv sd tg ct tm k
  by_cases hk : sv ++ sColon ++ tg = k
  · rw [if_pos hk]
    subst hk
    simp [LogMessage, seqOf, storeLookup_insert_self]
  · rw [if_neg hk]
    unfold LogMessage seqOf
    dsimp only
    rw [storeLookup_insert_other _ _ _ _ hk]

theorem logRun_chain_aux :
    ∀ (cs : List LogCall) (u : Store) (k : List Char),
      List.Chain' (fun a b => a < b) (seqOf u k :: bucketIds (logRun u cs).2 k) := by
  intro cs
  induction cs with
  | nil => intro u k; simp [logRun, bucketIds]
  | cons c t ih =>
    intro u k
    have houts : (logRun u (c :: t)).2
        = (c.server ++ sColon ++ c.target,
           (LogMessage u c.server c.sender c.target c.content c.time).2)
          :: (logRun (LogMessage u c.server c.sender c.target c.content c.time).1 t).2 := rfl
    rw [houts]
    have hkey := seqOf_logMessage u c.server c.sender c.target c.content c.time k
    have hid : (LogMessage u c.server c.sender c.target c.content c.time).2
        = seqOf u (c.server ++ sColon ++ c.target) + 1 := rfl
    by_cases hk : c.server ++ sColon ++ c.target = k
    · rw [if_pos hk] at hkey
      simp only [bucketIds, List.filter_cons, beq_iff_eq, hk, if_true, List.map_cons]
      rw [List.chain'_cons]
      constructor
      · rw [hid, hk]; exact Nat.lt_succ_self _
      · have h2 := ih (LogMessage u c.server c.sender c.target c.content c.time).1 k
        rw [hkey, hk] at h2
        rw [hid, hk]
        exact h2
    · rw [if_neg hk] at hkey
      simp only [bucketIds, List.filter_cons, beq_iff_eq, hk, if_false, List.map_cons]
      have h2 := ih (LogMessage u c.server c.sender c.target c.content c.time).1 k
      rw [hkey] at h2
      exact h2

/-- C3.  In any run of LogMessage calls from any starting store, the ids
assigned inside one (server, target) bucket strictly increase in call
order. -/
theorem logMessage_ids_strictly_increasing :
    ∀ (u : Store) (calls : List LogCall) (k : List Char),
      List.Chain' (fun a b => a < b) (bucketIds (logRun u calls).2 k) :=
  fun u calls k => (logRun_chain_aux calls u k).tail

/- ===== C6 and C7: store read contracts ===== -/

theorem takeLastEq : ∀ {α : Type} (l : List α) (n : Nat),
    (l.reverse.take n).reverse = l.drop (l.length - n) := by
  intro α l
  induction l with
  | nil => intro n; simp
  | cons a t ih =>
    intro n
    by_cases h : n ≤ t.length
    · have h0 : n - t.reverse.length = 0 := by simp; omega
      have h1 : t.length + 1 - n = (t.length - n) + 1 := by omega
      simp only [List.reverse_cons, List.take_append_eq_append_take, h0,
        List.take_zero, List.append_nil, List.length_cons, h1, List.drop_succ_cons]
      rw [ih]
    · have h1 : t.length + 1 - n = 0 := by omega
      have h2 : (t.reverse ++ [a]).length ≤ n := by simp; omega
      simp [List.reverse_cons, List.take_of_length_le h2, h1]

theorem entryOk_id : ∀ (p : Nat × Option SMessage),
    entryOk p = true → (decodeSlot p).ID = p.1 := by
  intro p h
  obtain ⟨k, v⟩ := p
  cases v with
  | none => exact absurd h (by simp [entryOk])
  | some m =>
    simp only [entryOk, decide_eq_true_eq] at h
    simpa [decodeSlot] using h

theorem decodeSlot_ids : ∀ (l : List (Nat × Option SMessage)),
    (∀ p ∈ l, entryOk p = true) →
    (l.map decodeSlot).map SMessage.ID = l.map Prod.fst := by
  intro l h
  induction l with
  | nil => rfl
  | cons p t ih =>
    simp only [List.map_cons, List.cons.injEq]
    constructor
    · exact entryOk_id p (h p (by simp))
    · exact ih (fun q hq => h q (by simp [hq]))

theorem take_findIdx_false : ∀ {α : Type} (p : α → Bool) (l : List α) (x : α),
    x ∈ l.take (l.findIdx p) → p x = false := by
  intro α p l
  induction l with
  | nil => intro x hx; simp at hx
  | cons a t ih =>
    intro x hx
    rw [List.findIdx_cons] at hx
    by_cases hpa : p a
    · simp [hpa] at hx
    · rw [cond_eq_if, if_neg (by simp [hpa]), List.take_succ_cons] at hx
      rcases List.mem_cons.mp hx with h | h
      · subst h; simpa using hpa
      · exact ih x h

theorem storeLookup_mem : ∀ (u : Store) (k : List Char) (b : Bucket),
    storeLookup u k = some b → (k, b) ∈ u := by
  intro u k b
  induction u with
  | nil => intro h; exact absurd h (by simp [storeLookup])
  | cons p t ih =>
    intro h
    obtain ⟨k0, b0⟩ := p
    by_cases hk : k0 = k
    · subst hk
      rw [storeLookup, if_pos rfl] at h
      injection h with h'
      subst h'
      exact List.mem_cons_self _ _
    · rw [storeLookup, if_neg hk] at h
      exact List.mem_cons_of_mem _ (ih h)

theorem getLastMessages_eq :
    ∀ (u : Store) (server channel : List Char) (n : Nat) (b : Bucket),
      storeLookup u (server ++ sColon ++ channel) = some b →
      GetLastMessages u server channel n
        = ((b.entries.drop (b.entries.length - n)).map decodeSlot, none) := by
  intro u server channel n b hl
  unfold GetLastMessages
  rw [hl]
  dsimp only
  rw [takeLastEq]
  split
  · rfl
  · rename_i h1
    split
    · rfl
    · rename_i h2
      have h3 : ((b.entries.drop (b.entries.length - n)).map decodeSlot).length
          = b.entries.length - (b.entries.length - n) := by
        rw [List.length_map, List.length_drop]
      have h4 : ((b.entries.drop (b.entries.length - n)).map decodeSlot).length = 0 := by
        omega
      rw [List.length_eq_zero] at h4
      rw [h4]

/-- C6.  For every server, channel and count: an absent bucket yields an
empty result and no error; a bucket with fewer than count records yields
exactly those records, in stored (ascending id) order, and no error; a
bucket with at least count records yields the last count of them, in
ascending id order, and no error.  Under store well-formedness the
returned record ids are strictly ascending. -/
theorem getLastMessages_contract :
    ∀ (u : Store) (server channel : List Char) (n : Nat),
      StoreWF u →
      (storeLookup u (server ++ sColon ++ channel) = none →
        GetLastMessages u server channel n = ([], none)) ∧
      (∀ b, storeLookup u (server ++ sColon ++ channel) = some b →
        (b.entries.length < n →
          GetLastMessages u server channel n = (b.entries.map decodeSlot, none)) ∧
        (n ≤ b.entries.length →
          GetLastMessages u server channel n
            = ((b.entries.drop (b.entries.length - n)).map decodeSlot, none)) ∧
        List.Chain' (fun a b => a < b)
          ((GetLastMessages u server channel n).1.map SMessage.ID)) := by
  intro u server channel n hwf
  constructor
  · intro hl
    unfold GetLastMessages
    rw [hl]
  · intro b hl
    have hb : BucketWF b := hwf _ (storeLookup_mem u _ b hl)
    refine ⟨?_, ?_, ?_⟩
    · intro hlt
      rw [getLastMessages_eq u server channel n b hl,
        Nat.sub_eq_zero_of_le (Nat.le_of_lt hlt), List.drop_zero]
    · intro _
      exact getLastMessages_eq u server channel n b hl
    · rw [getLastMessages_eq u server channel n b hl]
      dsimp only
      rw [decodeSlot_ids _ (fun p hp => hb.2 p (List.drop_subset _ _ hp))]
      exact List.chain'_map_of_chain' Prod.fst (fun a b h => h) (hb.1.drop _)

theorem storeWF_uEx : StoreWF uEx := by
  intro p hp
  simp only [uEx, List.mem_singleton] at hp
  subst hp
  constructor
  · simp [bEx, List.chain'_cons, List.chain'_singleton]
  · decide

/-- Witness for C6 at a three-record bucket read with a larger count. -/
theorem getLastMessages_contract_witness :
    StoreWF uEx ∧
    storeLookup uEx (sSrv ++ sColon ++ sHashChan) = some bEx ∧
    bEx.entries.length < 5 ∧
    GetLastMessages uEx sSrv sHashChan 5 = (bEx.entries.map decodeSlot, none) :=
  ⟨storeWF_uEx, by decide, by decide,
   (((getLastMessages_contract uEx sSrv sHashChan 5 storeWF_uEx).2 bEx
      (by decide)).1) (by decide)⟩

theorem getMessages_eq :
    ∀ (u : Store) (server channel : List Char) (n fromID : Nat) (b : Bucket),
      storeLookup u (server ++ sColon ++ channel) = some b →
      GetMessages u server channel n fromID
        = (((b.entries.take
              (b.entries.findIdx (fun e => decide (fromID ≤ e.1)))).drop
            ((b.entries.take
              (b.entries.findIdx (fun e => decide (fromID ≤ e.1)))).length - n)).map
            decodeSlot,
           none) := by
  intro u server channel n fromID b hl
  unfold GetMessages
  rw [hl]
  dsimp only
  rw [takeLastEq]
  split
  · rfl
  · rename_i h1
    split
    · rfl
    · rename_i h2
      have h3 : (((b.entries.take
            (b.entries.findIdx (fun e => decide (fromID ≤ e.1)))).drop
          ((b.entries.take
            (b.entries.findIdx (fun e => decide (fromID ≤ e.1)))).length - n)).map
          decodeSlot).length
          = (b.entries.take
              (b.entries.findIdx (fun e => decide (fromID ≤ e.1)))).length
            - ((b.entries.take
                (b.entries.findIdx (fun e => decide (fromID ≤ e.1)))).length - n) := by
        rw [List.length_map, List.length_drop]
      have h4 : (((b.entries.take
            (b.entries.findIdx (fun e => decide (fromID ≤ e.1)))).drop
          ((b.entries.take
            (b.entries.findIdx (fun e => decide (fromID ≤ e.1)))).length - n)).map
          decodeSlot) = [] := by
        rw [← List.length_eq_zero]
        omega
      rw [h4]

/-- C7.  For every bucket and every fromID present in it, GetMessages
returns at most count records, each with id strictly below fromID, in
ascending id order (the cursor walks strictly backward from fromID). -/
theorem getMessages_contract :
    ∀ (u : Store) (server channel : List Char) (n fromID : Nat) (b : Bucket),
      StoreWF u →
      storeLookup u (server ++ sColon ++ channel) = some b →
      fromID ∈ b.entries.map Prod.fst →
      (GetMessages u server channel n fromID).1.length ≤ n ∧
      (∀ m ∈ (GetMessages u server channel n fromID).1, m.ID < fromID) ∧
      List.Chain' (fun a b => a < b)
        ((GetMessages u server channel n fromID).1.map SMessage.ID) := by
  intro u server channel n fromID b hwf hl hmem
  have hb : BucketWF b := hwf _ (storeLookup_mem u _ b hl)
  rw [getMessages_eq u server channel n fromID b hl]
  dsimp only
  refine ⟨?_, ?_, ?_⟩
  · rw [List.length_map, List.length_drop]
    omega
  · intro m hm
    rcases List.mem_map.mp hm with ⟨p, hp, hpm⟩
    have hpre := List.mem_of_mem_drop hp
    have hok : entryOk p = true := hb.2 p (List.take_subset _ _ hpre)
    have hfalse := take_findIdx_false (fun e => decide (fromID ≤ e.1)) b.entries p hpre
    have hlt : p.1 < fromID := by
      by_contra hge
      simp only [decide_eq_false_iff_not, not_le] at hfalse
      omega
    rw [← hpm, entryOk_id p hok]
    exact hlt
  · rw [decodeSlot_ids _
      (fun p hp => hb.2 p (List.take_subset _ _ (List.mem_of_mem_drop hp)))]
    exact List.chain'_map_of_chain' Prod.fst (fun a b h => h) ((hb.1.take _).drop _)

/-- Witness for C7 at a three-record bucket, paging back from id 3. -/
theorem getMessages_contract_witness :
    StoreWF uEx ∧
    storeLookup uEx (sSrv ++ sColon ++ sHashChan) = some bEx ∧
    (3 ∈ bEx.entries.map Prod.fst) ∧
    ((GetMessages uEx sSrv sHashChan 5 3).1.length ≤ 5 ∧
     (∀ m ∈ (GetMessages uEx sSrv sHashChan 5 3).1, m.ID < 3) ∧
     List.Chain' (fun a b => a < b)
       ((GetMessages uEx sSrv sHashChan 5 3).1.map SMessage.ID)) :=
  ⟨storeWF_uEx, by decide, by decide,
   getMessages_contract uEx sSrv sHashChan 5 3 bEx storeWF_uEx (by decide) (by decide)⟩

/- ===== C5: dispatch before delivery (corrected) ===== -/

/-- Counterexample to C5 as stated: a successfully parsed ERROR line is
handed to the consumer first, before the disconnect state change and
the quit signal, so the delivery is not last. -/
theorem recv_error_delivery_order_cex :
    ParseMessage (trimSpaces lineErrCmd) = some msgErr ∧
    recvStep cfgPlain (initState sAlice) lineErrCmd
      = some ({ initState sAlice with quitClosed := true },
              [Event.deliver msgErr, Event.connChange false false, Event.closeQuit],
              true) ∧
    ¬ deliversLast
        [Event.deliver msgErr, Event.connChange false false, Event.closeQuit]
        msgErr := by
  refine ⟨by decide, by decide, ?_⟩
  intro hdl
  exact absurd hdl.1 (by decide)

/-- C5 as amended: for every successfully parsed inbound line whose
command is not ERROR, the receive step runs the whole dispatch first and
delivers the message to the consumer exactly once, as its final action;
an ERROR line instead delivers during dispatch, before the state change
and quit signal. -/
theorem dispatch_before_deliver :
    ∀ (cfg : RecvConfig) (st : ClientState) (line : List Char)
      (st' : ClientState) (evs : List Event) (halt : Bool) (m : Message),
      recvStep cfg st line = some (st', evs, halt) →
      ParseMessage (trimSpaces line) = some m →
      m.Command ≠ ERROR →
      deliversLast evs m := by
  intro cfg st line st' evs halt m h hp hne
  unfold recvStep at h
  by_cases hb : trimSpaces line = []
  · rw [hb] at hp
    exact absurd hp (by simp [ParseMessage, trimRN, trimBy])
  · dsimp only at h
    rw [if_neg hb, hp] at h
    dsimp only at h
    repeat' split at h
    all_goals first
      | exact Option.noConfusion h
      | (simp only [Option.some.injEq, Prod.mk.injEq] at h
         obtain ⟨h1, h2, h3⟩ := h
         subst h2
         simp [deliversLast, List.getLast?, List.dropLast])

/-- Witness for C5 as amended, at a PING line. -/
theorem dispatch_before_deliver_witness :
    recvStep cfgPlain (initState sAlice) linePing
      = some (initState sAlice, evsPing, false) ∧
    ParseMessage (trimSpaces linePing) = some msgPing ∧
    msgPing.Command ≠ ERROR ∧
    deliversLast evsPing msgPing :=
  ⟨by decide, by decide, by decide,
   dispatch_before_deliver cfgPlain (initState sAlice) linePing
     (initState sAlice) evsPing false msgPing (by decide) (by decide) (by decide)⟩

/- ===== C4: empty input handling (corrected) ===== -/

/-- Counterexample to C4 as stated: an input line that is empty after
trimming never reaches the parser; the receive loop skips it without
closing quit, without emitting any event and without halting, so no
protocol violation occurs for it. -/
theorem recv_empty_line_ignored_cex :
    trimSpaces lineBlank = [] ∧
    recvStep cfgPlain (initState sAlice) lineBlank
      = some (initState sAlice, [], false) ∧
    (initState sAlice).quitClosed = false := by decide

/-- C4 as amended: parsing input that is empty after trimming yields a
parse failure, but the engine skips empty lines before ever parsing
them; only a parse failure on a non-empty line is treated as a protocol
violation (quit closed, bad-protocol state change, loop return). -/
theorem parse_failure_handling :
    ∀ (cfg : RecvConfig) (st : ClientState) (line : List Char),
      (trimRN line = [] → ParseMessage line = none) ∧
      (trimSpaces line = [] → recvStep cfg st line = some (st, [], false)) ∧
      (trimSpaces line ≠ [] → ParseMessage (trimSpaces line) = none →
        recvStep cfg st line
          = some ({ st with quitClosed := true },
                  [Event.closeQuit, Event.connChange false true], true)) := by
  intro cfg st line
  refine ⟨?_, ?_, ?_⟩
  · intro h
    simp [ParseMessage, h]
  · intro h
    unfold recvStep
    dsimp only
    rw [if_pos h]
  · intro h hp
    unfold recvStep
    dsimp only
    rw [if_neg h, hp]

/-- Witness for C4 as amended: the empty line, a blank line and a
non-empty unparseable line. -/
theorem parse_failure_handling_witness :
    (trimRN ([] : List Char) = [] ∧ ParseMessage ([] : List Char) = none) ∧
    (trimSpaces lineBlank = [] ∧
      recvStep cfgPlain (initState sAlice) lineBlank
        = some (initState sAlice, [], false)) ∧
    (trimSpaces lineBadPfx ≠ [] ∧ ParseMessage (trimSpaces lineBadPfx) = none ∧
      recvStep cfgPlain (initState sAlice) lineBadPfx
        = some ({ initState sAlice with quitClosed := true },
                [Event.closeQuit, Event.connChange false true], true)) :=
  ⟨⟨rfl, (parse_failure_handling cfgPlain (initState sAlice) ([] : List Char)).1 rfl⟩,
   ⟨by decide,
    (parse_failure_handling cfgPlain (initState sAlice) lineBlank).2.1 (by decide)⟩,
   ⟨by decide, by decide,
    (parse_failure_handling cfgPlain (initState sAlice) lineBadPfx).2.2
      (by decide) (by decide)⟩⟩

/- ===== C2: outbound gating on the welcome (corrected) ===== -/

theorem recvStep_preWelcome :
    ∀ (cfg : RecvConfig) (st : ClientState) (l : List Char)
      (st' : ClientState) (evs : List Event) (halt : Bool),
      recvStep cfg st l = some (st', evs, halt) →
      parsesToWelcome l = false →
      st.sendStarted = false →
      st'.sendStarted = false ∧ ∀ e ∈ evs, eventOkPreWelcome e = true := by
  intro cfg st l st' evs halt h hw hs
  unfold recvStep at h
  by_cases hb : trimSpaces l = []
  · dsimp only at h
    rw [if_pos hb] at h
    simp only [Option.some.injEq, Prod.mk.injEq] at h
    obtain ⟨h1, h2, h3⟩ := h
    subst h1; subst h2
    exact ⟨hs, by simp⟩
  · dsimp only at h
    rw [if_neg hb] at h
    cases hp : ParseMessage (trimSpaces l) with
    | none =>
      rw [hp] at h
      dsimp only at h
      simp only [Option.some.injEq, Prod.mk.injEq] at h
      obtain ⟨h1, h2, h3⟩ := h
      subst h1; subst h2
      exact ⟨hs, by simp [eventOkPreWelcome]⟩
    | some m =>
      have hnw : m.Command ≠ RPL_WELCOME := by
        intro hc
        rw [parsesToWelcome, hp] at hw
        simp [hc] at hw
      rw [hp] at h
      dsimp only at h
      repeat' split at h
      all_goals first
        | exact Option.noConfusion h
        | (simp only [Option.some.injEq, Prod.mk.injEq] at h
           obtain ⟨h1, h2, h3⟩ := h
           subst h1
           subst h2
           constructor
           · first
               | exact hs
               | (unfold addChannel; split <;> exact hs)
           · simp [eventOkPreWelcome, allowedPreWelcome, startsWith_append])

/-- C2 as amended: lines enqueued by the consumer are held and drained
only after registration, because the send task is started only upon the
welcome numeric; before it the receive loop performs no send-task start
and its only direct socket writes are PONG replies and replacement NICK
commands, while the registration handshake itself (PASS, NICK, USER and
the CAP/SASL exchange) is also written before the welcome. -/
theorem send_task_gated_on_welcome :
    ∀ (cfg : RecvConfig) (lines : List (List Char)) (st0 st : ClientState)
      (evs : List Event),
      st0.sendStarted = false →
      (∀ l ∈ lines, parsesToWelcome l = false) →
      recvRun cfg st0 lines = some (st, evs) →
      st.sendStarted = false ∧ ∀ e ∈ evs, eventOkPreWelcome e = true := by
  intro cfg lines
  induction lines with
  | nil =>
    intro st0 st evs hs hw h
    simp only [recvRun, Option.some.injEq, Prod.mk.injEq] at h
    obtain ⟨h1, h2⟩ := h
    subst h1; subst h2
    exact ⟨hs, by simp⟩
  | cons l ls ih =>
    intro st0 st evs hs hw h
    unfold recvRun at h
    cases hstep : recvStep cfg st0 l with
    | none => rw [hstep] at h; exact Option.noConfusion h
    | some r =>
      obtain ⟨st1, evs1, halt⟩ := r
      rw [hstep] at h
      have hpre := recvStep_preWelcome cfg st0 l st1 evs1 halt hstep
        (hw l (by simp)) hs
      cases halt with
      | true =>
        dsimp only at h
        simp only [Option.some.injEq, Prod.mk.injEq] at h
        obtain ⟨h1, h2⟩ := h
        subst h1; subst h2
        exact hpre
      | false =>
        dsimp only at h
        cases hrun : recvRun cfg st1 ls with
        | none => rw [hrun] at h; exact Option.noConfusion h
        | some r2 =>
          obtain ⟨st2, evs2⟩ := r2
          rw [hrun] at h
          simp only [Option.some.injEq, Prod.mk.injEq] at h
          obtain ⟨h1, h2⟩ := h
          subst h1; subst h2
          have hrest := ih st1 st2 evs2 hpre.1
            (fun x hx => hw x (by simp [hx])) hrun
          refine ⟨hrest.1, ?_⟩
          intro e he
          rcases List.mem_append.mp he with hm | hm
          · exact hpre.2 e hm
          · exact hrest.2 e hm

/-- Witness for C2 as amended: a PING-only inbound prefix leaves the
send task unstarted and only performs an allowed write. -/
theorem send_task_gated_on_welcome_witness :
    (initState sAlice).sendStarted = false ∧
    (∀ l ∈ [linePing], parsesToWelcome l = false) ∧
    recvRun cfgPlain (initState sAlice) [linePing]
      = some (initState sAlice, evsPing) ∧
    ((initState sAlice).sendStarted = false ∧
      ∀ e ∈ evsPing, eventOkPreWelcome e = true) :=
  ⟨by decide, by decide, by decide,
   send_task_gated_on_welcome cfgPlain [linePing] (initState sAlice)
     (initState sAlice) evsPing (by decide) (by decide) (by decide)⟩
